import Mathlib

/-!
Verification of the global-attention module (`theCode/GlobalAttention.py`).

The module consists of a standalone function `func_attention` and a class
`GlobalAttentionGeneral` with methods `applyMask` and `forward`.  We give a
shallow embedding in two layers:

* value level — tensors are index functions into the reals and each tensor
  operation of the source is translated into an explicit definition;
* shape level — the shape behaviour of every tensor operation is a
  computable function on dimension lists returning `Except ShapeErr`,
  mirroring which calls raise shape errors and which shapes they produce.

Conventions used throughout:
- a tensor of shape (B, D, Q) is a function `ℕ → ℕ → ℕ → ℝ`; indices beyond
  the bounds are irrelevant to every theorem (bounds appear as hypotheses);
- `nn.Softmax()` constructed without a `dim` argument resolves, for a
  2-dimensional input, to a softmax along dimension 1, and for a
  4-dimensional input, to a softmax along dimension 1 (the channel axis);
  this is the dimension-inference rule of the framework version the source
  targets, and it is fixed here once in `softmaxRow`;
- `masked_fill_(mask, -inf)` followed by softmax yields, in floating point,
  weight 0 at masked positions and NaN everywhere in a row whose positions
  are all masked (the denominator is then 0).  We model a row of the masked
  softmax as `Option (ℕ → ℝ)`: `none` is the NaN row, `some f` gives the
  finite weights.
-/

open Finset

/-- Softmax of the row `f` of length `n`, evaluated at position `j`.
This is `nn.Softmax()` applied along the last axis of a 2-D tensor
(dimension-inference rule of the source's framework), one row at a time. -/
noncomputable def softmaxRow (n : ℕ) (f : ℕ → ℝ) (j : ℕ) : ℝ :=
  Real.exp (f j) / ∑ k in Finset.range n, Real.exp (f k)

/-!
### Value-level embedding of `func_attention` (source lines 31-69)

`query : batch x ndf x queryL`, `context : batch x ndf x ih x iw`.
-/

/-- `context.view(batch_size, -1, sourceL)` (source line 42): the spatial
dimensions (ih, iw) are flattened row-major into the source index `s`. -/
def cflat (iw : ℕ) (context : ℕ → ℕ → ℕ → ℕ → ℝ) (b d s : ℕ) : ℝ :=
  context b d (s / iw) (s % iw)

/-- `attn = torch.bmm(contextT, query)` (source line 48), Eq. (7):
raw similarity, entry (b, s, q). -/
def attnRaw (D iw : ℕ) (query : ℕ → ℕ → ℕ → ℝ) (context : ℕ → ℕ → ℕ → ℕ → ℝ)
    (b s q : ℕ) : ℝ :=
  ∑ d in Finset.range D, cflat iw context b d s * query b d q

/-- Source lines 50-51: `attn.view(batch_size*sourceL, queryL)` followed by
`nn.Softmax()` ("Eq. 8").  Row `b*S + s` of the flattened tensor is the
function `q ↦ attnRaw b s q`, so the softmax normalizes over the query
axis, independently for each source position. -/
noncomputable def eq8 (D Q iw : ℕ) (query : ℕ → ℕ → ℕ → ℝ)
    (context : ℕ → ℕ → ℕ → ℕ → ℝ) (b s q : ℕ) : ℝ :=
  softmaxRow Q (fun q2 => attnRaw D iw query context b s q2) q

/-- Source lines 58-60: multiply the row by `gamma1` and apply the second
softmax ("Eq. 9") along the last axis of the `(batch*queryL, sourceL)`
view. -/
noncomputable def sharpSoftmax (g : ℝ) (v : ℕ → ℝ) (n j : ℕ) : ℝ :=
  softmaxRow n (fun k => g * v k) j

/-- Entry (b, q, s) of the tensor after the "Eq. 9" softmax (source line
61): after the transpose at line 56, row `b*Q + q` holds `s ↦ eq8 b s q`. -/
noncomputable def eq9 (g : ℝ) (D Q S iw : ℕ) (query : ℕ → ℕ → ℕ → ℝ)
    (context : ℕ → ℕ → ℕ → ℕ → ℝ) (b q s : ℕ) : ℝ :=
  sharpSoftmax g (fun s2 => eq8 D Q iw query context b s2 q) S s

/-- `weightedContext = torch.bmm(context, attnT)` (source line 67),
entry (b, d, q). -/
noncomputable def weightedContextF (g : ℝ) (D Q S iw : ℕ)
    (query : ℕ → ℕ → ℕ → ℝ) (context : ℕ → ℕ → ℕ → ℕ → ℝ) (b d q : ℕ) : ℝ :=
  ∑ s in Finset.range S, cflat iw context b d s * eq9 g D Q S iw query context b q s

/-- `attn.view(batch_size, -1, ih, iw)` (source line 69): the `(B, Q, S)`
tensor read back as a rank-4 tensor; entry (b, c, i, j) is the Eq.-9 weight
of query position `c` at source position `i*iw + j`. -/
noncomputable def attnMapF (g : ℝ) (D Q S iw : ℕ) (query : ℕ → ℕ → ℕ → ℝ)
    (context : ℕ → ℕ → ℕ → ℕ → ℝ) (b c i j : ℕ) : ℝ :=
  eq9 g D Q S iw query context b c (i * iw + j)

/-- The pair returned by `func_attention` (source line 69). -/
noncomputable def func_attention (g : ℝ) (D Q S iw : ℕ)
    (query : ℕ → ℕ → ℕ → ℝ) (context : ℕ → ℕ → ℕ → ℕ → ℝ) :
    (ℕ → ℕ → ℕ → ℝ) × (ℕ → ℕ → ℕ → ℕ → ℝ) :=
  (weightedContextF g D Q S iw query context, attnMapF g D Q S iw query context)

/-!
### Value-level embedding of `GlobalAttentionGeneral.forward` (source lines 87-147)

`input : batch x idf x ih x iw`, `sentence : batch x 100`,
`context : batch x cdf x sourceL`.  The learned parameters are the 1x1
convolution weights (functions of output and input channel) and the linear
map's weight and bias.
-/

/-- Row of a softmax after `masked_fill_(mask, -inf)` (source lines
112-116): masked entries contribute `exp(-inf) = 0` to the denominator and
get weight 0; a row whose positions are all masked has denominator 0 and
every weight NaN, modelled as `none`. -/
noncomputable def maskedSoftmaxRowFn (n : ℕ) (mk : ℕ → Bool) (f : ℕ → ℝ) :
    Option (ℕ → ℝ) :=
  if ∀ k ∈ Finset.range n, mk k = true then none
  else some fun j => if mk j then 0
    else Real.exp (f j) / ∑ k in Finset.range n, (if mk k then 0 else Real.exp (f k))

/-- `self.mask.repeat(queryL, 1)` (source line 114): `torch.repeat` tiles
the stored `(B, S)` mask along dimension 0, so row `r` of the repeated mask
is stored row `r % B`. -/
def maskRep (B : ℕ) (mk : ℕ → ℕ → Bool) (r s : ℕ) : Bool := mk (r % B) s

/-- `sourceT = self.conv_context(sourceT).squeeze(3)` (source lines
102-104): 1x1 convolution without bias projecting `cdf` context channels
to `idf`. -/
def sourceTv (cdf : ℕ) (Wc : ℕ → ℕ → ℝ) (context : ℕ → ℕ → ℕ → ℝ)
    (b d s : ℕ) : ℝ :=
  ∑ c in Finset.range cdf, Wc d c * context b c s

/-- Row (b, q) of `attn = torch.bmm(targetT, sourceT)` (source lines
99-109): the flattened input position `q` addresses spatial cell
`(q / iw, q % iw)`. -/
def attnRowG (idf cdf W : ℕ) (Wc : ℕ → ℕ → ℝ) (input : ℕ → ℕ → ℕ → ℕ → ℝ)
    (context : ℕ → ℕ → ℕ → ℝ) (b q s : ℕ) : ℝ :=
  ∑ d in Finset.range idf, input b d (q / W) (q % W) * sourceTv cdf Wc context b d s

/-- Row (b, q) of the word attention after the optional mask and the
softmax (source lines 111-116).  The flattened similarity row index is
`b*queryL + q` and, when a mask is stored, position s is masked according
to `maskRep` at that row index. -/
noncomputable def wordAttnRowFn (B Q S idf cdf W : ℕ)
    (maskOpt : Option (ℕ → ℕ → Bool)) (Wc : ℕ → ℕ → ℝ)
    (input : ℕ → ℕ → ℕ → ℕ → ℝ) (context : ℕ → ℕ → ℕ → ℝ) (b q : ℕ) :
    Option (ℕ → ℝ) :=
  match maskOpt with
  | none => some (fun s => softmaxRow S (attnRowG idf cdf W Wc input context b q) s)
  | some msk =>
      maskedSoftmaxRowFn S (fun s => maskRep B msk (b * Q + q) s)
        (attnRowG idf cdf W Wc input context b q)

/-- `word_attn = attn.view(batch_size, -1, ih, iw)` (source line 127):
entry (b, s0, h, w) is the attention weight of query position `h*iw + w`
on source position `s0`. -/
noncomputable def word_attn (B S idf cdf H W : ℕ)
    (maskOpt : Option (ℕ → ℕ → Bool)) (Wc : ℕ → ℕ → ℝ)
    (input : ℕ → ℕ → ℕ → ℕ → ℝ) (context : ℕ → ℕ → ℕ → ℝ) (b s0 h w : ℕ) :
    Option ℝ :=
  (wordAttnRowFn B (H * W) S idf cdf W maskOpt Wc input context b (h * W + w)).map
    fun f => f s0

/-- `weightedContext` (source lines 124-125): batched matrix product of the
projected context with the word attention, reshaped to (B, idf, ih, iw).
A NaN attention row (all positions masked) propagates, hence `Option`. -/
noncomputable def weightedContextG (B S idf cdf H W : ℕ)
    (maskOpt : Option (ℕ → ℕ → Bool)) (Wc : ℕ → ℕ → ℝ)
    (input : ℕ → ℕ → ℕ → ℕ → ℝ) (context : ℕ → ℕ → ℕ → ℝ) (b d h w : ℕ) :
    Option ℝ :=
  (wordAttnRowFn B (H * W) S idf cdf W maskOpt Wc input context b (h * W + w)).map
    fun f => ∑ s in Finset.range S, sourceTv cdf Wc context b d s * f s

/-- `sentence = self.linear(sentence)` (source line 130): `nn.Linear(100,
idf)` with weight `Wl` and bias `bl`; the input width is fixed at 100. -/
def linearMap (Wl : ℕ → ℕ → ℝ) (bl : ℕ → ℝ) (sentence : ℕ → ℕ → ℝ)
    (b i : ℕ) : ℝ :=
  (∑ e in Finset.range 100, Wl i e * sentence b e) + bl i

/-- Source lines 132-134: `view(batch_size, idf, 1, 1)` then
`repeat(1, 1, ih, iw)` — the projected sentence vector broadcast over the
spatial grid (independent of h and w). -/
def sentenceRep (Wl : ℕ → ℕ → ℝ) (bl : ℕ → ℝ) (sentence : ℕ → ℕ → ℝ)
    (b d h w : ℕ) : ℝ :=
  linearMap Wl bl sentence b d

/-- `sentence_vs = torch.mul(input, sentence)` (source line 136). -/
def sentence_vs (Wl : ℕ → ℕ → ℝ) (bl : ℕ → ℝ) (input : ℕ → ℕ → ℕ → ℕ → ℝ)
    (sentence : ℕ → ℕ → ℝ) (b d h w : ℕ) : ℝ :=
  input b d h w * sentenceRep Wl bl sentence b d h w

/-- `sentence_vs = self.conv_sentence_vis(sentence_vs)` (source line 138):
1x1 convolution without bias on `idf` channels. -/
def conv_sentence_vis_out (idf : ℕ) (Wv Wl : ℕ → ℕ → ℝ) (bl : ℕ → ℝ)
    (input : ℕ → ℕ → ℕ → ℕ → ℝ) (sentence : ℕ → ℕ → ℝ) (b d h w : ℕ) : ℝ :=
  ∑ c in Finset.range idf, Wv d c * sentence_vs Wl bl input sentence b c h w

/-- `sent_att = nn.Softmax()(sentence_vs)` (source line 140): for a rank-4
input the dimension-inference rule of `nn.Softmax()` selects dimension 1,
so the softmax runs over the channel axis at each (b, h, w). -/
noncomputable def sent_att (idf : ℕ) (Wv Wl : ℕ → ℕ → ℝ) (bl : ℕ → ℝ)
    (input : ℕ → ℕ → ℕ → ℕ → ℝ) (sentence : ℕ → ℕ → ℝ) (b d h w : ℕ) : ℝ :=
  softmaxRow idf (fun c => conv_sentence_vis_out idf Wv Wl bl input sentence b c h w) d

/-- `weightedSentence = torch.mul(sentence, sent_att)` (source line 142). -/
noncomputable def weightedSentence (idf : ℕ) (Wv Wl : ℕ → ℕ → ℝ) (bl : ℕ → ℝ)
    (input : ℕ → ℕ → ℕ → ℕ → ℝ) (sentence : ℕ → ℕ → ℝ) (b d h w : ℕ) : ℝ :=
  sentenceRep Wl bl sentence b d h w * sent_att idf Wv Wl bl input sentence b d h w

/-- The state of a `GlobalAttentionGeneral` instance: the three learned
parameter sets created in `__init__` (source lines 73-81) and the optional
mask (source line 77). -/
structure GAttnState where
  conv_context : ℕ → ℕ → ℝ
  conv_sentence_vis : ℕ → ℕ → ℝ
  linear_w : ℕ → ℕ → ℝ
  linear_b : ℕ → ℝ
  mask : Option (ℕ → ℕ → Bool)

/-- `applyMask` (source lines 83-84): overwrite the stored mask; passing an
absent mask clears it. -/
def applyMask (st : GAttnState) (m : Option (ℕ → ℕ → Bool)) : GAttnState :=
  { st with mask := m }

/-- The four tensors returned by `forward` (source line 147):
`(weightedContext, weightedSentence, word_attn, sent_att)`. -/
noncomputable def forwardOutputs (st : GAttnState) (B S cdf H W idf : ℕ)
    (input : ℕ → ℕ → ℕ → ℕ → ℝ) (sentence : ℕ → ℕ → ℝ)
    (context : ℕ → ℕ → ℕ → ℝ) :
    (ℕ → ℕ → ℕ → ℕ → Option ℝ) × (ℕ → ℕ → ℕ → ℕ → ℝ) ×
    (ℕ → ℕ → ℕ → ℕ → Option ℝ) × (ℕ → ℕ → ℕ → ℕ → ℝ) :=
  (weightedContextG B S idf cdf H W st.mask st.conv_context input context,
   weightedSentence idf st.conv_sentence_vis st.linear_w st.linear_b input sentence,
   word_attn B S idf cdf H W st.mask st.conv_context input context,
   sent_att idf st.conv_sentence_vis st.linear_w st.linear_b input sentence)

/-- `forward` as a state transformer: the body reads the instance fields
but never assigns any of them (source lines 87-147 contain no write to
`self`), so the resulting state is the input state. -/
noncomputable def forward (st : GAttnState) (B S cdf H W idf : ℕ)
    (input : ℕ → ℕ → ℕ → ℕ → ℝ) (sentence : ℕ → ℕ → ℝ)
    (context : ℕ → ℕ → ℕ → ℝ) :
    ((ℕ → ℕ → ℕ → ℕ → Option ℝ) × (ℕ → ℕ → ℕ → ℕ → ℝ) ×
     (ℕ → ℕ → ℕ → ℕ → Option ℝ) × (ℕ → ℕ → ℕ → ℕ → ℝ)) × GAttnState :=
  (forwardOutputs st B S cdf H W idf input sentence context, st)

/-!
### Shape-level embedding

Shapes are lists of dimension sizes; each operation checks exactly what
its tensor-library counterpart checks and returns `Except ShapeErr`,
tagging the operation that raised.
-/

/-- The shape-mismatch error, tagged with the operation that raises it. -/
inductive ShapeErr where
  | view
  | bmm
  | conv
  | linear
  | mul
  | maskFill

/-- Number of elements of a shape. -/
def numel : List ℕ → ℕ
  | [] => 1
  | d :: s => d * numel s

/-- `view(pre..., -1, post...)`: the inferred dimension is
`numel / (numel pre * numel post)`; the call raises when the known product
is zero or does not divide the element count. -/
def viewInfer (s pre post : List ℕ) : Except ShapeErr (List ℕ) :=
  if 0 < numel pre * numel post ∧ numel pre * numel post ∣ numel s then
    .ok (pre ++ numel s / (numel pre * numel post) :: post)
  else .error .view

/-- `view` with all dimensions given: raises unless element counts agree. -/
def viewTo (s t : List ℕ) : Except ShapeErr (List ℕ) :=
  if numel s = numel t then .ok t else .error .view

/-- `torch.transpose(x, 1, 2)` on a rank-3 shape. -/
def transpose12 : List ℕ → List ℕ
  | [a, b, c] => [a, c, b]
  | s => s

/-- `torch.bmm`: batch sizes and inner dimensions must agree. -/
def bmmShape : List ℕ → List ℕ → Except ShapeErr (List ℕ)
  | [b1, n, m], [b2, m2, p] =>
      if b1 = b2 ∧ m = m2 then .ok [b1, n, p] else .error .bmm
  | _, _ => .error .bmm

/-- A 1x1 convolution (stride 1, no padding): requires the channel
dimension to equal `cin` and preserves the spatial extent. -/
def conv1x1Shape (cin cout : ℕ) : List ℕ → Except ShapeErr (List ℕ)
  | [b, c, h, w] => if c = cin then .ok [b, cout, h, w] else .error .conv
  | _ => .error .conv

/-- `squeeze(3)`: drop the final dimension when it is 1. -/
def squeeze3 : List ℕ → List ℕ
  | [a, b, c, 1] => [a, b, c]
  | s => s

/-- `nn.Linear(inF, outF)` applied to a rank-2 input: the final dimension
must equal the fixed input width. -/
def linearShape (inF outF : ℕ) : List ℕ → Except ShapeErr (List ℕ)
  | [b, e] => if e = inF then .ok [b, outF] else .error .linear
  | _ => .error .linear

/-- Broadcast of one dimension pair: equal, or one of the two is 1. -/
def broadcastDim (a b : ℕ) : Except ShapeErr ℕ :=
  if a = b then .ok a
  else if a = 1 then .ok b
  else if b = 1 then .ok a
  else .error .mul

/-- `torch.mul` of two rank-4 tensors under broadcasting. -/
def mulBroadcast4 : List ℕ → List ℕ → Except ShapeErr (List ℕ)
  | [a1, a2, a3, a4], [b1, b2, b3, b4] => do
      let c1 ← broadcastDim a1 b1
      let c2 ← broadcastDim a2 b2
      let c3 ← broadcastDim a3 b3
      let c4 ← broadcastDim a4 b4
      .ok [c1, c2, c3, c4]
  | _, _ => .error .mul

/-- `masked_fill_`: the rank-2 mask must be broadcastable to the rank-2
tensor; the tensor's shape is unchanged. -/
def maskFillShape (s m : List ℕ) : Except ShapeErr (List ℕ) :=
  match s, m with
  | [r, c], [mr, mc] =>
      if (mr = r ∨ mr = 1) ∧ (mc = c ∨ mc = 1) then .ok [r, c]
      else .error .maskFill
  | _, _ => .error .maskFill

/-- `torch.repeat`: multiply each dimension by its repeat count
(rank 4). -/
def repeatDims : List ℕ → List ℕ → List ℕ
  | [a1, a2, a3, a4], [r1, r2, r3, r4] => [a1 * r1, a2 * r2, a3 * r3, a4 * r4]
  | s, _ => s

/-- Source lines 112-115: when a mask of shape (mb, ms) is stored it is
repeated `queryL` times along dimension 0 and filled into the flattened
similarity tensor; with no stored mask the tensor passes through. -/
def maskStep (attn : List ℕ) (queryL : ℕ) :
    Option (ℕ × ℕ) → Except ShapeErr (List ℕ)
  | none => .ok attn
  | some (mb, ms) => maskFillShape attn [queryL * mb, ms]

/-- Shape behaviour of `func_attention` (source lines 31-69) for query
(B, D, Q) and context (B, D, ih, iw): each step is the shape rule of the
corresponding source line; returns (weightedContext shape, attention-map
shape). -/
def funcAttentionShapes (B D Q ih iw : ℕ) :
    Except ShapeErr (List ℕ × List ℕ) := do
  let ctx ← viewInfer [B, D, ih, iw] [B] [ih * iw]
  let a0 ← bmmShape (transpose12 ctx) [B, D, Q]
  let a1 ← viewTo a0 [B * (ih * iw), Q]
  let a2 ← viewTo a1 [B, ih * iw, Q]
  let a4 ← viewTo (transpose12 a2) [B * Q, ih * iw]
  let a5 ← viewTo a4 [B, Q, ih * iw]
  let wc ← bmmShape ctx (transpose12 a5)
  let amap ← viewInfer a5 [B] [ih, iw]
  .ok (wc, amap)

/-- Shape behaviour of `GlobalAttentionGeneral.forward` (source lines
87-147) for a layer built as `GlobalAttentionGeneral(idf0, cdf)` holding an
optional mask of shape `maskShape`, applied to input (Bi, Di, H, W),
sentence (Bs, E) and context (Bc, C, S).  `batch_size` is read from the
context (source line 96) and `idf` from the input (source line 93).
Returns the shapes of (weightedContext, weightedSentence, word_attn,
sent_att). -/
def forwardShapes (idf0 cdf : ℕ) (maskShape : Option (ℕ × ℕ))
    (Bi Di H W Bs E Bc C S : ℕ) :
    Except ShapeErr (List ℕ × List ℕ × List ℕ × List ℕ) := do
  let target ← viewInfer [Bi, Di, H, W] [Bc] [H * W]
  let sourceT0 ← conv1x1Shape cdf idf0 [Bc, C, S, 1]
  let attn0 ← bmmShape (transpose12 target) (squeeze3 sourceT0)
  let attn1 ← viewTo attn0 [Bc * (H * W), S]
  let attn2 ← maskStep attn1 (H * W) maskShape
  let attn3 ← viewTo attn2 [Bc, H * W, S]
  let wc0 ← bmmShape (squeeze3 sourceT0) (transpose12 attn3)
  let wc ← viewInfer wc0 [Bc] [H, W]
  let wordAttn ← viewInfer (transpose12 attn3) [Bc] [H, W]
  let sent1 ← linearShape 100 idf0 [Bs, E]
  let sent2 ← viewTo sent1 [Bc, Di, 1, 1]
  let sv ← mulBroadcast4 [Bi, Di, H, W] (repeatDims sent2 [1, 1, H, W])
  let sv2 ← conv1x1Shape idf0 idf0 sv
  let ws ← mulBroadcast4 (repeatDims sent2 [1, 1, H, W]) sv2
  .ok (wc, ws, wordAttn, sv2)

/-! ### Helper lemmas -/

/-- The denominator of a softmax row is positive when the row is
nonempty. -/
lemma softmaxRow_den_pos (n : ℕ) (f : ℕ → ℝ) (hn : 0 < n) :
    0 < ∑ k in Finset.range n, Real.exp (f k) :=
  Finset.sum_pos (fun k _ => Real.exp_pos (f k)) (Finset.nonempty_range_iff.mpr hn.ne')

/-- Softmax weights are non-negative. -/
lemma softmaxRow_nonneg (n : ℕ) (f : ℕ → ℝ) (j : ℕ) : 0 ≤ softmaxRow n f j :=
  div_nonneg (Real.exp_nonneg (f j))
    (Finset.sum_nonneg fun k _ => Real.exp_nonneg (f k))

/-- Softmax weights sum to 1 along the normalized axis. -/
lemma softmaxRow_sum (n : ℕ) (f : ℕ → ℝ) (hn : 0 < n) :
    ∑ j in Finset.range n, softmaxRow n f j = 1 := by
  unfold softmaxRow
  rw [← Finset.sum_div]
  exact div_self (softmaxRow_den_pos n f hn).ne'

/-- Computation rule of `Except` bind on a success value. -/
lemma exceptBind_ok {α β : Type} (a : α) (f : α → Except ShapeErr β) :
    (Except.ok a >>= f : Except ShapeErr β) = f a := rfl

/-- Computation rule of `Except` bind on an error value. -/
lemma exceptBind_err {α β : Type} (e : ShapeErr) (f : α → Except ShapeErr β) :
    (Except.error e >>= f : Except ShapeErr β) = .error e := rfl

/-- Inversion of an `Except` bind that succeeded. -/
lemma exceptBind_ok_iff {α β : Type} {e : Except ShapeErr α}
    {f : α → Except ShapeErr β} {r : β} :
    e >>= f = .ok r ↔ ∃ a, e = .ok a ∧ f a = .ok r := by
  cases e <;> simp [Bind.bind, Except.bind]

/-- A `-1` view succeeds when the known product is positive and divides
the element count. -/
lemma viewInfer_eq_ok (s pre post : List ℕ) (d : ℕ)
    (hk : 0 < numel pre * numel post)
    (he : numel s = numel pre * numel post * d) :
    viewInfer s pre post = .ok (pre ++ d :: post) := by
  unfold viewInfer
  rw [if_pos ⟨hk, ⟨d, he⟩⟩, he, Nat.mul_div_cancel_left d hk]

/-- A fully specified view succeeds when element counts agree. -/
lemma viewTo_eq_ok (s t : List ℕ) (h : numel s = numel t) :
    viewTo s t = .ok t := by
  unfold viewTo
  rw [if_pos h]

/-- `bmm` on matching batch and inner dimensions. -/
lemma bmmShape_eq_ok (b1 n m p : ℕ) :
    bmmShape [b1, n, m] [b1, m, p] = .ok [b1, n, p] := by
  simp [bmmShape]

/-- `bmm` raises when batch or inner dimensions disagree. -/
lemma bmmShape_eq_err (b1 n m b2 m2 p : ℕ) (h : ¬(b1 = b2 ∧ m = m2)) :
    bmmShape [b1, n, m] [b2, m2, p] = .error .bmm := by
  simp only [bmmShape]
  rw [if_neg h]

/-- A 1x1 convolution on a matching channel dimension. -/
lemma conv1x1Shape_eq_ok (cin cout b h w : ℕ) :
    conv1x1Shape cin cout [b, cin, h, w] = .ok [b, cout, h, w] := by
  simp [conv1x1Shape]

/-- A linear layer applied to its fixed input width. -/
lemma linearShape_eq_ok (inF outF b : ℕ) :
    linearShape inF outF [b, inF] = .ok [b, outF] := by
  simp [linearShape]

/-- A linear layer raises on any other input width. -/
lemma linearShape_eq_err (inF outF b e : ℕ) (he : e ≠ inF) :
    linearShape inF outF [b, e] = .error .linear := by
  simp [linearShape, he]

/-- Broadcasting a dimension with itself. -/
lemma broadcastDim_self (a : ℕ) : broadcastDim a a = .ok a := by
  simp [broadcastDim]

/-- Elementwise multiplication of equal shapes. -/
lemma mulBroadcast4_self (a1 a2 a3 a4 : ℕ) :
    mulBroadcast4 [a1, a2, a3, a4] [a1, a2, a3, a4] = .ok [a1, a2, a3, a4] := by
  simp only [mulBroadcast4, broadcastDim_self, exceptBind_ok]

/-- The mask step with no stored mask passes the shape through. -/
lemma maskStep_none (attn : List ℕ) (q : ℕ) : maskStep attn q none = .ok attn := rfl

/-- Inversion of a successful `-1` view. -/
lemma viewInfer_ok_inv {s pre post t : List ℕ}
    (h : viewInfer s pre post = .ok t) :
    0 < numel pre * numel post ∧ numel pre * numel post ∣ numel s ∧
    t = pre ++ numel s / (numel pre * numel post) :: post := by
  unfold viewInfer at h
  split_ifs at h with hc
  · injection h with h
    exact ⟨hc.1, hc.2, h.symm⟩

/-- Inversion of a successful `-1` view with singleton prefix and
postfix. -/
lemma viewInfer_ok_inv3 {s : List ℕ} {x y : ℕ} {t : List ℕ}
    (h : viewInfer s [x] [y] = .ok t) :
    0 < x * y ∧ x * y ∣ numel s ∧ t = [x, numel s / (x * y), y] := by
  have h2 := viewInfer_ok_inv h
  simpa [numel] using h2

/-- Inversion of a successful fully specified view. -/
lemma viewTo_ok_inv {s t r : List ℕ} (h : viewTo s t = .ok r) :
    numel s = numel t ∧ r = t := by
  unfold viewTo at h
  split_ifs at h with hc
  · injection h with h
    exact ⟨hc, h.symm⟩

/-- Inversion of a successful 1x1 convolution. -/
lemma conv1x1Shape_ok_inv {cin cout b c h w : ℕ} {r : List ℕ}
    (hk : conv1x1Shape cin cout [b, c, h, w] = .ok r) :
    c = cin ∧ r = [b, cout, h, w] := by
  simp only [conv1x1Shape] at hk
  split_ifs at hk with hc
  · injection hk with hk
    exact ⟨hc, hk.symm⟩

/-- Inversion of a successful `bmm`. -/
lemma bmmShape_ok_inv {b1 n m b2 m2 p : ℕ} {r : List ℕ}
    (hk : bmmShape [b1, n, m] [b2, m2, p] = .ok r) :
    b1 = b2 ∧ m = m2 ∧ r = [b1, n, p] := by
  simp only [bmmShape] at hk
  split_ifs at hk with hc
  · injection hk with hk
    exact ⟨hc.1, hc.2, hk.symm⟩

/-- Inversion of a successful linear layer application. -/
lemma linearShape_ok_inv {inF outF b e : ℕ} {r : List ℕ}
    (h : linearShape inF outF [b, e] = .ok r) :
    e = inF ∧ r = [b, outF] := by
  simp only [linearShape] at h
  split_ifs at h with hc
  · injection h with h
    exact ⟨hc, h.symm⟩

/-- Broadcasting a dimension with itself yields that dimension. -/
lemma broadcastDim_ok_self {a c : ℕ} (h : broadcastDim a a = .ok c) : c = a := by
  rw [broadcastDim_self] at h
  injection h with h
  exact h.symm

/-- Inversion of a successful broadcast multiplication. -/
lemma mulBroadcast4_ok_inv {a1 a2 a3 a4 b1 b2 b3 b4 : ℕ} {r : List ℕ}
    (h : mulBroadcast4 [a1, a2, a3, a4] [b1, b2, b3, b4] = .ok r) :
    ∃ c1 c2 c3 c4, broadcastDim a1 b1 = .ok c1 ∧ broadcastDim a2 b2 = .ok c2 ∧
      broadcastDim a3 b3 = .ok c3 ∧ broadcastDim a4 b4 = .ok c4 ∧
      r = [c1, c2, c3, c4] := by
  simp only [mulBroadcast4, exceptBind_ok_iff] at h
  obtain ⟨c1, h1, c2, h2, c3, h3, c4, h4, hr⟩ := h
  injection hr with hr
  exact ⟨c1, c2, c3, c4, h1, h2, h3, h4, hr.symm⟩

/-! ### The claims -/

/-- Claim C1, code bug, evaluated at a failing input.  Take B = 2 batches,
spatial input 1x2 (queryL = 2), S = 2 source positions, all-zero tensors,
and a stored mask that masks exactly source position 0 of batch 0.  Then:
(i) the mask marks (batch 0, source 0) as masked; (ii) the attention weight
the code produces at batch 0, query position (0,1), source 0 is 1/2, not
approximately 0, because `repeat(queryL, 1)` tiles the mask so that
flattened row r is masked by stored row r % B instead of row r / queryL;
(iii) at query position (0,0) of the same batch the same source position
does receive weight 0 — which mask row is applied depends on the query
index, contradicting the per-batch broadcast that the claim (and the
code's own comment at line 113) describes. -/
theorem c1_mask_misaligned :
    (fun b s : ℕ => b == 0 && s == 0) 0 0 = true ∧
    word_attn 2 2 1 1 1 2 (some (fun b s : ℕ => b == 0 && s == 0)) (fun _ _ => 0)
        (fun _ _ _ _ => 0) (fun _ _ _ => 0) 0 0 0 1 = some (1 / 2) ∧
    word_attn 2 2 1 1 1 2 (some (fun b s : ℕ => b == 0 && s == 0)) (fun _ _ => 0)
        (fun _ _ _ _ => 0) (fun _ _ _ => 0) 0 0 0 0 = some 0 := by
  refine ⟨rfl, ?_, ?_⟩
  · simp only [word_attn, wordAttnRowFn, maskedSoftmaxRowFn]
    rw [if_neg (by decide)]
    simp [maskRep, attnRowG, sourceTv, Finset.sum_range_succ, Real.exp_zero]
  · simp only [word_attn, wordAttnRowFn, maskedSoftmaxRowFn]
    rw [if_neg (by decide)]
    simp [maskRep]

/-- Claim C2, counterexample.  With query length Q = 1 and source length
S = 2 (all-zero inputs), each first-stage ("Eq. 8") weight is 1 — the
softmax of a one-element row — so the first-stage weights at a fixed query
position sum to 2, not 1, along the S axis.  The first softmax therefore
does not normalize over the S axis as the claim states. -/
theorem c2_counterexample :
    ∑ s in Finset.range 2,
      eq8 1 1 0 (fun _ _ _ => 0) (fun _ _ _ _ => 0) 0 s 0 ≠ 1 := by
  have h1 : ∀ s : ℕ, eq8 1 1 0 (fun _ _ _ => 0) (fun _ _ _ _ => 0) 0 s 0 = 1 := by
    intro s
    unfold eq8 softmaxRow attnRaw cflat
    simp only [Finset.sum_range_one, mul_zero, Real.exp_zero]
    norm_num
  rw [Finset.sum_congr rfl fun s _ => h1 s]
  norm_num

/-- Claim C2, amended.  In `func_attention`, the first softmax ("Eq. 8")
is computed over the query axis independently per source position, and the
second softmax ("Eq. 9") over the S axis independently per query position;
each stage produces non-negative weights summing to 1 along its own
normalization axis (in particular the second stage sums to 1 along S for
each query position). -/
theorem c2_softmax_axes (D Q S iw : ℕ) (g : ℝ) (query : ℕ → ℕ → ℕ → ℝ)
    (context : ℕ → ℕ → ℕ → ℕ → ℝ) (b s q qi si : ℕ)
    (hQ : 0 < Q) (hS : 0 < S) :
    (∑ q2 in Finset.range Q, eq8 D Q iw query context b s q2 = 1) ∧
    0 ≤ eq8 D Q iw query context b s qi ∧
    (∑ s2 in Finset.range S, eq9 g D Q S iw query context b q s2 = 1) ∧
    0 ≤ eq9 g D Q S iw query context b q si := by
  refine ⟨?_, ?_, ?_, ?_⟩
  · unfold eq8
    exact softmaxRow_sum Q _ hQ
  · unfold eq8
    exact softmaxRow_nonneg Q _ qi
  · unfold eq9 sharpSoftmax
    exact softmaxRow_sum S _ hS
  · unfold eq9 sharpSoftmax
    exact softmaxRow_nonneg S _ si

/-- Claim C2, witness: the amended theorem instantiated at Q = 1, S = 2
with all-zero inputs. -/
theorem c2_softmax_axes_witness :
    (0 : ℕ) < 1 ∧ (0 : ℕ) < 2 ∧
    ((∑ q2 in Finset.range 1,
        eq8 1 1 0 (fun _ _ _ => 0) (fun _ _ _ _ => 0) 0 0 q2 = 1) ∧
     0 ≤ eq8 1 1 0 (fun _ _ _ => 0) (fun _ _ _ _ => 0) 0 0 0 ∧
     (∑ s2 in Finset.range 2,
        eq9 1 1 1 2 0 (fun _ _ _ => 0) (fun _ _ _ _ => 0) 0 0 s2 = 1) ∧
     0 ≤ eq9 1 1 1 2 0 (fun _ _ _ => 0) (fun _ _ _ _ => 0) 0 0 0) :=
  ⟨by decide, by decide,
    c2_softmax_axes 1 1 2 0 1 (fun _ _ _ => 0) (fun _ _ _ _ => 0) 0 0 0 0 0
      (by decide) (by decide)⟩

/-- Claim C3, counterexample.  With a single batch element whose mask row
is all-true (every context position masked), the code fills the whole
similarity row with -inf and the softmax denominator is 0: every weight of
the row is NaN (modelled `none`), not a near-uniform or fallback
distribution. -/
theorem c3_counterexample :
    word_attn 1 2 1 1 1 1 (some (fun _ _ : ℕ => true)) (fun _ _ => 0)
        (fun _ _ _ _ => 0) (fun _ _ _ => 0) 0 0 0 0 = none := by
  simp only [word_attn, wordAttnRowFn, maskedSoftmaxRowFn]
  rw [if_pos (by decide)]
  rfl

/-- Claim C3, amended.  In `GlobalAttentionGeneral.forward` with a mask
set, whenever the mask row the code applies to a flattened query row is
all-true, every post-softmax attention value of that row is undefined
(NaN in the floating-point execution, `none` in this model); the code
provides no fallback. -/
theorem c3_all_masked_undefined (B S idf cdf H W : ℕ) (msk : ℕ → ℕ → Bool)
    (Wc : ℕ → ℕ → ℝ) (input : ℕ → ℕ → ℕ → ℕ → ℝ) (context : ℕ → ℕ → ℕ → ℝ)
    (b s0 h w : ℕ)
    (hmask : ∀ k ∈ Finset.range S, maskRep B msk (b * (H * W) + (h * W + w)) k = true) :
    word_attn B S idf cdf H W (some msk) Wc input context b s0 h w = none := by
  simp only [word_attn, wordAttnRowFn, maskedSoftmaxRowFn]
  rw [if_pos hmask]
  rfl

/-- Claim C3, witness for the amended statement: an all-true mask with
B = 1, S = 2. -/
theorem c3_all_masked_undefined_witness :
    (∀ k ∈ Finset.range 2,
        maskRep 1 (fun _ _ : ℕ => true) (0 * (1 * 1) + (0 * 1 + 0)) k = true) ∧
    word_attn 1 2 1 1 1 1 (some (fun _ _ : ℕ => true)) (fun _ _ => 0)
        (fun _ _ _ _ => 0) (fun _ _ _ => 0) 0 0 0 0 = none :=
  ⟨by decide,
    c3_all_masked_undefined 1 2 1 1 1 1 (fun _ _ : ℕ => true) (fun _ _ => 0)
      (fun _ _ _ _ => 0) (fun _ _ _ => 0) 0 0 0 0 (by decide)⟩

/-- Claim C4, counterexample.  For query length Q = 1 over a context of
spatial extent 1x2 (S = 2), `func_attention` returns an attention map of
shape (1, 1, 1, 2) = (B, Q, ih, iw), not (1, 2, 1, 2) = (B, S, ih, iw) as
the claim states: the final `view(batch_size, -1, ih, iw)` of the
(B, Q, S) tensor infers Q, not S, for the second dimension. -/
theorem c4_counterexample :
    funcAttentionShapes 1 3 1 1 2 = .ok ([1, 3, 1], [1, 1, 1, 2]) ∧
    ([1, 1, 1, 2] : List ℕ) ≠ [1, 2, 1, 2] := by
  constructor
  · rfl
  · decide

/-- Claim C4, amended.  For every query of shape (B, D, Q) and context of
shape (B, D, ih, iw), the attention map returned by `func_attention` has
shape (B, Q, ih, iw) — which equals the claimed (B, S, ih, iw) only when
Q = S — and the weighted context has shape (B, D, Q). -/
theorem c4_attn_map_shape (B D Q ih iw : ℕ)
    (hB : 0 < B) (hih : 0 < ih) (hiw : 0 < iw) :
    funcAttentionShapes B D Q ih iw = .ok ([B, D, Q], [B, Q, ih, iw]) := by
  unfold funcAttentionShapes
  rw [viewInfer_eq_ok [B, D, ih, iw] [B] [ih * iw] D
    (by simp only [numel, mul_one]; positivity) (by simp only [numel, mul_one]; ring)]
  simp only [List.cons_append, List.nil_append, exceptBind_ok]
  simp only [transpose12]
  rw [bmmShape_eq_ok B (ih * iw) D Q]
  simp only [exceptBind_ok]
  rw [viewTo_eq_ok _ _ (by simp only [numel, mul_one]; ring)]
  simp only [exceptBind_ok]
  rw [viewTo_eq_ok _ _ (by simp only [numel, mul_one]; ring)]
  simp only [exceptBind_ok, transpose12]
  rw [viewTo_eq_ok _ _ (by simp only [numel, mul_one]; ring)]
  simp only [exceptBind_ok]
  rw [viewTo_eq_ok _ _ (by simp only [numel, mul_one]; ring)]
  simp only [exceptBind_ok, transpose12]
  rw [bmmShape_eq_ok B D (ih * iw) Q]
  simp only [exceptBind_ok]
  rw [viewInfer_eq_ok [B, Q, ih * iw] [B] [ih, iw] Q
    (by simp only [numel, mul_one]; positivity) (by simp only [numel, mul_one]; ring)]
  simp only [List.cons_append, List.nil_append, exceptBind_ok]

/-- Claim C4, witness for the amended statement: B = 2, D = 4, Q = 9,
context spatial extent 1x5. -/
theorem c4_attn_map_shape_witness :
    (0 : ℕ) < 2 ∧ (0 : ℕ) < 1 ∧ (0 : ℕ) < 5 ∧
    funcAttentionShapes 2 4 9 1 5 = .ok ([2, 4, 9], [2, 9, 1, 5]) :=
  ⟨by decide, by decide, by decide,
    c4_attn_map_shape 2 4 9 1 5 (by decide) (by decide) (by decide)⟩

/-- Claim C5, confirmed.  For every valid call of
`GlobalAttentionGeneral.forward` — input (B, D, H, W), sentence (B, 100),
context (B, C, S), with D the layer's query channel width, C its context
channel width, and the stored mask either absent or of shape (B, S) —
weightedContext has shape (B, D, H, W), word_attn has shape (B, S, H, W),
and sent_att and weightedSentence both have the shape of the spatial
input. -/
theorem c5_forward_shapes (idf0 cdf B D H W S C : ℕ) (m : Option (ℕ × ℕ))
    (hB : 0 < B) (hH : 0 < H) (hW : 0 < W)
    (hD : D = idf0) (hC : C = cdf) (hm : m = none ∨ m = some (B, S)) :
    forwardShapes idf0 cdf m B D H W B 100 B C S =
      .ok ([B, D, H, W], [B, D, H, W], [B, S, H, W], [B, D, H, W]) := by
  subst hD hC
  unfold forwardShapes
  rw [viewInfer_eq_ok [B, D, H, W] [B] [H * W] D
    (by simp only [numel, mul_one]; positivity) (by simp only [numel, mul_one]; ring)]
  simp only [List.cons_append, List.nil_append, exceptBind_ok]
  rw [conv1x1Shape_eq_ok C D B S 1]
  simp only [exceptBind_ok, transpose12, squeeze3]
  rw [bmmShape_eq_ok B (H * W) D S]
  simp only [exceptBind_ok]
  rw [viewTo_eq_ok _ _ (by simp only [numel, mul_one]; ring)]
  simp only [exceptBind_ok]
  have hmask : maskStep [B * (H * W), S] (H * W) m = .ok [B * (H * W), S] := by
    rcases hm with rfl | rfl
    · rfl
    · simp only [maskStep, maskFillShape]
      rw [if_pos ⟨Or.inl (by ring), by simp⟩]
  rw [hmask]
  simp only [exceptBind_ok]
  rw [viewTo_eq_ok _ _ (by simp only [numel, mul_one]; ring)]
  simp only [exceptBind_ok, transpose12]
  rw [bmmShape_eq_ok B D S (H * W)]
  simp only [exceptBind_ok]
  rw [viewInfer_eq_ok [B, D, H * W] [B] [H, W] D
    (by simp only [numel, mul_one]; positivity) (by simp only [numel, mul_one]; ring)]
  simp only [List.cons_append, List.nil_append, exceptBind_ok]
  rw [viewInfer_eq_ok [B, S, H * W] [B] [H, W] S
    (by simp only [numel, mul_one]; positivity) (by simp only [numel, mul_one]; ring)]
  simp only [List.cons_append, List.nil_append, exceptBind_ok]
  rw [linearShape_eq_ok 100 D B]
  simp only [exceptBind_ok]
  rw [viewTo_eq_ok _ _ (by simp only [numel, mul_one])]
  simp only [exceptBind_ok, repeatDims, one_mul, mul_one]
  rw [mulBroadcast4_self B D H W]
  simp only [exceptBind_ok]
  rw [conv1x1Shape_eq_ok D D B H W]
  simp only [exceptBind_ok]
  rw [mulBroadcast4_self B D H W]
  simp only [exceptBind_ok]

/-- Claim C5, witness: the specification's end-to-end example — B = 2,
D = 4, S = 5, H = W = 3, context channels 3, with a stored (2, 5) mask. -/
theorem c5_forward_shapes_witness :
    forwardShapes 4 3 (some (2, 5)) 2 4 3 3 2 100 2 3 5 =
      .ok ([2, 4, 3, 3], [2, 4, 3, 3], [2, 5, 3, 3], [2, 4, 3, 3]) :=
  c5_forward_shapes 4 3 2 4 3 3 5 3 (some (2, 5)) (by decide) (by decide)
    (by decide) rfl rfl (Or.inr rfl)

/-- Claim C6, confirmed.  `sent_att` is the softmax over the channel
dimension of the gating convolution's output (`conv_sentence_vis`), so at
every batch element and spatial position the entries across the channel
dimension are non-negative and sum to 1 (for a layer with at least one
channel). -/
theorem c6_sent_att_channel_softmax (idf : ℕ) (Wv Wl : ℕ → ℕ → ℝ)
    (bl : ℕ → ℝ) (input : ℕ → ℕ → ℕ → ℕ → ℝ) (sentence : ℕ → ℕ → ℝ)
    (b d h w : ℕ) (hidf : 0 < idf) :
    0 ≤ sent_att idf Wv Wl bl input sentence b d h w ∧
    ∑ c in Finset.range idf, sent_att idf Wv Wl bl input sentence b c h w = 1 := by
  constructor
  · unfold sent_att
    exact softmaxRow_nonneg idf _ d
  · unfold sent_att
    exact softmaxRow_sum idf _ hidf

/-- Claim C6, witness: a single-channel layer with all-zero parameters
and inputs. -/
theorem c6_sent_att_channel_softmax_witness :
    (0 : ℕ) < 1 ∧
    (0 ≤ sent_att 1 (fun _ _ => 0) (fun _ _ => 0) (fun _ => 0)
        (fun _ _ _ _ => 0) (fun _ _ => 0) 0 0 0 0 ∧
     ∑ c in Finset.range 1, sent_att 1 (fun _ _ => 0) (fun _ _ => 0) (fun _ => 0)
        (fun _ _ _ _ => 0) (fun _ _ => 0) 0 c 0 0 = 1) :=
  ⟨by decide,
    c6_sent_att_channel_softmax 1 (fun _ _ => 0) (fun _ _ => 0) (fun _ => 0)
      (fun _ _ _ _ => 0) (fun _ _ => 0) 0 0 0 0 (by decide)⟩

/-- Claim C7, confirmed.  The second-stage ("Eq. 9") softmax of
`func_attention` multiplies the fixed first-stage row by the sharpening
factor before the softmax (source lines 59-60, embedded as
`sharpSoftmax`).  For every row with at least two distinct values and all
positive factors g1 < g2, the maximum weight of the softmax of the row
scaled by g2 is strictly greater than that of the row scaled by g1. -/
theorem c7_sharpening (n : ℕ) (v : ℕ → ℝ) (i j : ℕ) (hi : i < n) (hj : j < n)
    (hij : v i ≠ v j) (g1 g2 : ℝ) (hg1 : 0 < g1) (hg12 : g1 < g2) :
    (Finset.range n).sup' ⟨i, Finset.mem_range.mpr hi⟩ (sharpSoftmax g1 v n)
      < (Finset.range n).sup' ⟨i, Finset.mem_range.mpr hi⟩ (sharpSoftmax g2 v n) := by
  have hn : 0 < n := lt_of_le_of_lt (Nat.zero_le i) hi
  have hne : (Finset.range n).Nonempty := ⟨i, Finset.mem_range.mpr hi⟩
  obtain ⟨k0, hk0mem, hk0⟩ := Finset.exists_mem_eq_sup' hne v
  have hvle : ∀ k ∈ Finset.range n, v k ≤ v k0 := by
    intro k hk
    rw [← hk0]
    exact Finset.le_sup' v hk
  have Zpos : ∀ g : ℝ, 0 < ∑ k in Finset.range n, Real.exp (g * v k) := by
    intro g
    exact softmaxRow_den_pos n (fun k => g * v k) hn
  have maxw : ∀ g : ℝ, 0 < g →
      (Finset.range n).sup' hne (sharpSoftmax g v n)
        = Real.exp (g * v k0) / ∑ k in Finset.range n, Real.exp (g * v k) := by
    intro g hg
    apply le_antisymm
    · apply Finset.sup'_le
      intro x hx
      unfold sharpSoftmax softmaxRow
      rw [div_le_div_iff_of_pos_right]
      · exact Real.exp_le_exp.mpr (mul_le_mul_of_nonneg_left (hvle x hx) hg.le)
      · exact Zpos g
    · exact Finset.le_sup' (sharpSoftmax g v n) hk0mem
  obtain ⟨k1, hk1mem, hk1⟩ : ∃ k1, k1 ∈ Finset.range n ∧ v k1 < v k0 := by
    rcases lt_or_gt_of_ne hij with h | h
    · exact ⟨i, Finset.mem_range.mpr hi,
        lt_of_lt_of_le h (hvle j (Finset.mem_range.mpr hj))⟩
    · exact ⟨j, Finset.mem_range.mpr hj,
        lt_of_lt_of_le h (hvle i (Finset.mem_range.mpr hi))⟩
  rw [maxw g1 hg1, maxw g2 (hg1.trans hg12)]
  rw [div_lt_div_iff₀ (Zpos g1) (Zpos g2)]
  rw [Finset.mul_sum, Finset.mul_sum]
  apply Finset.sum_lt_sum
  · intro k hk
    rw [← Real.exp_add, ← Real.exp_add]
    apply Real.exp_le_exp.mpr
    nlinarith [mul_nonneg (sub_nonneg.mpr hg12.le) (sub_nonneg.mpr (hvle k hk))]
  · refine ⟨k1, hk1mem, ?_⟩
    rw [← Real.exp_add, ← Real.exp_add]
    apply Real.exp_lt_exp.mpr
    nlinarith [mul_pos (sub_pos.mpr hg12) (sub_pos.mpr hk1)]

/-- Claim C7, witness: the row `k ↦ k` of length 2 with factors 1 < 2. -/
theorem c7_sharpening_witness :
    (0 : ℕ) < 2 ∧ (1 : ℕ) < 2 ∧
    ((fun k : ℕ => (k : ℝ)) 0 ≠ (fun k : ℕ => (k : ℝ)) 1) ∧
    (0 : ℝ) < 1 ∧ (1 : ℝ) < 2 ∧
    (Finset.range 2).sup' ⟨0, by decide⟩ (sharpSoftmax 1 (fun k : ℕ => (k : ℝ)) 2)
      < (Finset.range 2).sup' ⟨0, by decide⟩ (sharpSoftmax 2 (fun k : ℕ => (k : ℝ)) 2) :=
  ⟨by decide, by decide, by norm_num, by norm_num, by norm_num,
    c7_sharpening 2 (fun k : ℕ => (k : ℝ)) 0 1 (by decide) (by decide)
      (by norm_num) 1 2 (by norm_num) (by norm_num)⟩

/-- Claim C8, confirmed.  `forward` returns the instance state unchanged —
its body contains no assignment to any field (mask, conv_context,
conv_sentence_vis, linear weight or bias) — and `applyMask` is the only
operation that changes the mask: it sets it to its argument (absent
clears it) and leaves every learned parameter unchanged.  The mask
therefore has exactly the two states, unset and set-to-M, transitioned
only by `applyMask`. -/
theorem c8_frame (st : GAttnState) (B S cdf H W idf : ℕ)
    (input : ℕ → ℕ → ℕ → ℕ → ℝ) (sentence : ℕ → ℕ → ℝ)
    (context : ℕ → ℕ → ℕ → ℝ) (m : Option (ℕ → ℕ → Bool)) :
    (forward st B S cdf H W idf input sentence context).2 = st ∧
    (applyMask st m).mask = m ∧
    (applyMask st m).conv_context = st.conv_context ∧
    (applyMask st m).conv_sentence_vis = st.conv_sentence_vis ∧
    (applyMask st m).linear_w = st.linear_w ∧
    (applyMask st m).linear_b = st.linear_b ∧
    (applyMask st none).mask = none :=
  ⟨rfl, rfl, rfl, rfl, rfl, rfl, rfl⟩

/-- Claim C9, confirmed.  Fail-fast behaviour of
`GlobalAttentionGeneral.forward` on the three mismatch classes of the
specification: (i) a sentence whose embedding width differs from the fixed
linear input width 100 makes the call fail exactly at the linear
projection with no outputs produced; (ii) any disagreement of the batch
sizes of input, sentence and context makes the call fail (no success
value is possible); (iii) an input channel width that differs from the
layer's projected channel width makes the call fail at the batched matrix
multiplication following the projection. -/
theorem c9_fail_fast :
    (∀ idf0 cdf B D H W S C E : ℕ, 0 < B → 0 < H → 0 < W →
      D = idf0 → C = cdf → E ≠ 100 →
      forwardShapes idf0 cdf none B D H W B E B C S = .error .linear) ∧
    (∀ idf0 cdf Bi Di H W Bs Bc C S : ℕ, 0 < Di → 0 < H → 0 < W →
      ¬(Bi = Bc ∧ Bs = Bc) →
      ∀ r, forwardShapes idf0 cdf none Bi Di H W Bs 100 Bc C S ≠ .ok r) ∧
    (∀ idf0 cdf B D H W S C : ℕ, 0 < B → 0 < H → 0 < W →
      C = cdf → D ≠ idf0 →
      forwardShapes idf0 cdf none B D H W B 100 B C S = .error .bmm) := by
  refine ⟨?_, ?_, ?_⟩
  · intro idf0 cdf B D H W S C E hB hH hW hD hC hE
    subst hD hC
    unfold forwardShapes
    rw [viewInfer_eq_ok [B, D, H, W] [B] [H * W] D
      (by simp only [numel, mul_one]; positivity) (by simp only [numel, mul_one]; ring)]
    simp only [List.cons_append, List.nil_append, exceptBind_ok]
    rw [conv1x1Shape_eq_ok C D B S 1]
    simp only [exceptBind_ok, transpose12, squeeze3]
    rw [bmmShape_eq_ok B (H * W) D S]
    simp only [exceptBind_ok]
    rw [viewTo_eq_ok _ _ (by simp only [numel, mul_one]; ring)]
    simp only [exceptBind_ok, maskStep_none]
    rw [viewTo_eq_ok _ _ (by simp only [numel, mul_one]; ring)]
    simp only [exceptBind_ok, transpose12]
    rw [bmmShape_eq_ok B D S (H * W)]
    simp only [exceptBind_ok]
    rw [viewInfer_eq_ok [B, D, H * W] [B] [H, W] D
      (by simp only [numel, mul_one]; positivity) (by simp only [numel, mul_one]; ring)]
    simp only [List.cons_append, List.nil_append, exceptBind_ok]
    rw [viewInfer_eq_ok [B, S, H * W] [B] [H, W] S
      (by simp only [numel, mul_one]; positivity) (by simp only [numel, mul_one]; ring)]
    simp only [List.cons_append, List.nil_append, exceptBind_ok]
    rw [linearShape_eq_err 100 D B E hE]
    simp only [exceptBind_err]
  · intro idf0 cdf Bi Di H W Bs Bc C S hDi hH hW hne r h
    simp only [forwardShapes, maskStep_none, exceptBind_ok, exceptBind_ok_iff] at h
    obtain ⟨target, ht, s0, hs0, a0, ha0, a1, ha1, a3, ha3, w0, hw0, wc, hwc,
      wa, hwa, s1, hs1, s2, hs2, sv, hsv, sv2, hsv2, ws, hws, hr⟩ := h
    obtain ⟨hk, hdvd, htv⟩ := viewInfer_ok_inv3 ht
    subst htv
    obtain ⟨hC, hs0v⟩ := conv1x1Shape_ok_inv hs0
    subst hs0v
    simp only [transpose12, squeeze3] at ha0
    obtain ⟨-, hq, ha0v⟩ := bmmShape_ok_inv ha0
    have hnum : numel [Bi, Di, H, W] = Bc * (H * W) * idf0 :=
      Nat.eq_mul_of_div_eq_right hdvd hq
    simp only [numel, mul_one] at hnum
    obtain ⟨-, hs1v⟩ := linearShape_ok_inv hs1
    subst hs1v
    obtain ⟨hs2n, hs2v⟩ := viewTo_ok_inv hs2
    simp only [numel, mul_one] at hs2n
    subst hs2v
    simp only [repeatDims, one_mul, mul_one] at hsv
    obtain ⟨c1, c2, c3, c4, hb1, hb2, hb3, hb4, hsveq⟩ := mulBroadcast4_ok_inv hsv
    have hc2 : c2 = Di := broadcastDim_ok_self hb2
    subst hsveq
    obtain ⟨hc2i, -⟩ := conv1x1Shape_ok_inv hsv2
    have hDieq : Di = idf0 := by rw [← hc2, hc2i]
    have h1 : Bi * Di * (H * W) = Bc * Di * (H * W) := by
      calc Bi * Di * (H * W) = Bi * (Di * (H * W)) := by ring
        _ = Bc * (H * W) * idf0 := hnum
        _ = Bc * (H * W) * Di := by rw [hDieq]
        _ = Bc * Di * (H * W) := by ring
    have hBi : Bi = Bc :=
      Nat.eq_of_mul_eq_mul_right hDi
        (Nat.eq_of_mul_eq_mul_right (Nat.mul_pos hH hW) h1)
    have hBs : Bs = Bc := by
      have h2 : Bs * Di = Bc * Di := by
        calc Bs * Di = Bs * idf0 := by rw [hDieq]
          _ = Bc * Di := hs2n
      exact Nat.eq_of_mul_eq_mul_right hDi h2
    exact hne ⟨hBi, hBs⟩
  · intro idf0 cdf B D H W S C hB hH hW hC hD
    subst hC
    unfold forwardShapes
    rw [viewInfer_eq_ok [B, D, H, W] [B] [H * W] D
      (by simp only [numel, mul_one]; positivity) (by simp only [numel, mul_one]; ring)]
    simp only [List.cons_append, List.nil_append, exceptBind_ok]
    rw [conv1x1Shape_eq_ok C idf0 B S 1]
    simp only [exceptBind_ok, transpose12, squeeze3]
    rw [bmmShape_eq_err B (H * W) D B idf0 S (by intro hcon; exact hD hcon.2)]
    simp only [exceptBind_err]

/-- Claim C9, witness: a sentence of width 50 fails at the linear map; a
batch-1 input against batch-2 sentence and context admits no success; an
input with 7 channels against a 4-channel layer fails at the batched
matrix multiplication. -/
theorem c9_fail_fast_witness :
    forwardShapes 4 3 none 2 4 3 3 2 50 2 3 5 = .error .linear ∧
    forwardShapes 4 3 none 1 4 3 3 2 100 2 3 5 ≠
      .ok ([1], [1], [1], [1]) ∧
    forwardShapes 4 3 none 2 7 3 3 2 100 2 3 5 = .error .bmm :=
  ⟨c9_fail_fast.1 4 3 2 4 3 3 5 3 50 (by decide) (by decide) (by decide)
      rfl rfl (by decide),
   c9_fail_fast.2.1 4 3 1 4 3 3 2 2 3 5 (by decide) (by decide) (by decide)
      (by decide) ([1], [1], [1], [1]),
   c9_fail_fast.2.2 4 3 2 7 3 3 5 3 (by decide) (by decide) (by decide)
      rfl (by decide)⟩

/-- Claim C10, confirmed.  `func_attention` is a pure function of its
query, context and gamma1 arguments, and `forward` is a pure function of
the instance state (learned parameters and stored mask) and its input
tensors: equal arguments give equal results. -/
theorem c10_deterministic :
    (∀ (g1 g2 : ℝ) (D Q S iw : ℕ) (q1 q2 : ℕ → ℕ → ℕ → ℝ)
        (c1 c2 : ℕ → ℕ → ℕ → ℕ → ℝ), q1 = q2 → c1 = c2 → g1 = g2 →
        func_attention g1 D Q S iw q1 c1 = func_attention g2 D Q S iw q2 c2) ∧
    (∀ (st1 st2 : GAttnState) (B S cdf H W idf : ℕ)
        (i1 i2 : ℕ → ℕ → ℕ → ℕ → ℝ) (s1 s2 : ℕ → ℕ → ℝ)
        (c1 c2 : ℕ → ℕ → ℕ → ℝ), st1 = st2 → i1 = i2 → s1 = s2 → c1 = c2 →
        forward st1 B S cdf H W idf i1 s1 c1 = forward st2 B S cdf H W idf i2 s2 c2) := by
  constructor
  · intro g1 g2 D Q S iw q1 q2 c1 c2 hq hc hg
    rw [hq, hc, hg]
  · intro st1 st2 B S cdf H W idf i1 i2 s1 s2 c1 c2 hst hi hs hc
    rw [hst, hi, hs, hc]

/-- Claim C10, witness: two calls with syntactically equal concrete
arguments. -/
theorem c10_deterministic_witness :
    func_attention 1 1 1 1 1 (fun _ _ _ => 0) (fun _ _ _ _ => 0)
      = func_attention 1 1 1 1 1 (fun _ _ _ => 0) (fun _ _ _ _ => 0) :=
  c10_deterministic.1 1 1 1 1 1 1 (fun _ _ _ => 0) (fun _ _ _ => 0)
    (fun _ _ _ _ => 0) (fun _ _ _ _ => 0) rfl rfl rfl
